import Mathlib

/-!
Verification of the `folds` reduction engine.

Shallow embedding conventions:
* Rust traits `Fold1` / `Fold` / `FoldPar` (src/fold.rs) become Lean structures;
  the trait-hierarchy is modelled by structure extension.  Accumulator mutation
  (`&mut M`) is modelled by explicit state passing (`step : A → M → M`).
* `f64` arithmetic in the moment engine (src/stats.rs) is modelled over `ℚ`
  for the update/merge rules (they use only field operations) and over `ℝ`
  for `output` (which uses `powf` and `sqrt`).
* Iterators and rayon parallel iterators become `List`s; an arbitrary
  contiguous chunking (the source fixes chunk size 1024) becomes a
  `List (List A)`; rayon's `reduce` is modelled as a left fold with the
  `empty` identity.
-/

namespace Folds

variable {A B M E : Type}

/-- Rust trait `Fold1` (src/fold.rs): a fold that is always given at least one
input.  `stepChunk`'s default value is the trait's default body: one `step`
per item, in order. -/
structure Fold1S (A B M : Type) where
  init : A → M
  step : A → M → M
  output : M → B
  stepChunk : List A → M → M := fun xs m => xs.foldl (fun acc x => step x acc) m

/-- Rust trait `Fold` (src/fold.rs): adds the identity accumulator `empty`. -/
structure FoldS (A B M : Type) extends Fold1S A B M where
  empty : M

/-- Rust trait `FoldPar` (src/fold.rs): adds `merge`.  In the source `FoldPar`
extends only `Fold1`, but every parallel driver requires `Fold + FoldPar`,
so we bundle both here. -/
structure FoldParS (A B M : Type) extends FoldS A B M where
  merge : M → M → M

/-- Driver `run_fold_iter` (src/fold.rs:145): fold from `empty` by `step`, then `output`. -/
def runFoldIter (f : FoldS A B M) (xs : List A) : B :=
  f.output (xs.foldl (fun acc x => f.step x acc) f.empty)

/-- Driver `run_fold1_iter` (src/fold.rs:151): `init` on the first element, `step` on
the rest; `none` on empty input. -/
def runFold1Iter (f : Fold1S A B M) (xs : List A) : Option B :=
  match xs with
  | [] => none
  | x :: rest => some (f.output (rest.foldl (fun acc y => f.step y acc) (f.init x)))

/-- Driver `run_fold_par_iter` (src/fold.rs:205): each chunk is folded from `empty`
by `step`; the chunk accumulators are combined with `merge` starting from the
`empty` identity (rayon's `reduce`, modelled as a left fold).  The fixed chunk
size 1024 is generalised to an arbitrary contiguous chunking. -/
def runFoldParIter (f : FoldParS A B M) (chunks : List (List A)) : B :=
  f.output
    ((chunks.map (fun ch => ch.foldl (fun acc x => f.step x acc) f.empty)).foldl
      (fun m1 m2 => f.merge m1 m2) f.empty)

/-- Driver `run_fold_par_stream` (src/fold.rs:176): every stream element is sent to a
task computing `init`; the task results (`Result<M, JoinError>`, modelled as
`Except E M`) are folded from `empty`, merging a result only when it is `Ok`
and keeping the accumulator unchanged on a failed task; the driver always
returns `Some` of the output. -/
def runFoldParStream (f : FoldParS A B M) (results : List (Except E M)) : Option B :=
  some (f.output
    (results.foldl
      (fun m1 r =>
        match r with
        | .ok m2 => f.merge m1 m2
        | .error _ => m1)
      f.empty))

/-- Commutativity of a reducer's `merge`. -/
def CommMerge (f : FoldParS A B M) : Prop :=
  ∀ a b, f.merge a b = f.merge b a

/-- Associativity of a reducer's `merge`. -/
def AssocMerge (f : FoldParS A B M) : Prop :=
  ∀ a b c, f.merge (f.merge a b) c = f.merge a (f.merge b c)

/-- The accumulator-merge contract of the spec's data model: merging into `m`
an accumulator built from the inputs `xs` yields the same state as feeding
`xs`, in order, through `m`. -/
def MergeContract (f : FoldParS A B M) : Prop :=
  ∀ (m : M) (xs : List A),
    f.merge m (xs.foldl (fun acc x => f.step x acc) f.empty)
      = xs.foldl (fun acc x => f.step x acc) m

/-- Condition that `init` agrees with a first `step` out of the `empty` accumulator. -/
def InitConsistent (f : FoldParS A B M) : Prop :=
  ∀ x, f.init x = f.step x f.empty

/-- Claim C1 as stated, instantiated at `ℕ`-valued reducers: commutativity and
associativity of `merge` alone would force the data-parallel driver to agree
with the sequential drivers on every chunking. -/
def ParAgreesWithSeqClaim : Prop :=
  ∀ (F : FoldParS ℕ ℕ ℕ), CommMerge F → AssocMerge F →
    ∀ chunks : List (List ℕ),
      runFoldParIter F chunks = runFoldIter F.toFoldS chunks.flatten ∧
      (chunks.flatten ≠ [] →
        runFold1Iter F.toFold1S chunks.flatten = some (runFoldParIter F chunks))

/-- A reducer whose `merge` is commutative and associative (constantly `0`)
but unrelated to `empty`/`step`, and whose `init` disagrees with a first
`step` from `empty`. -/
def constMergeSum : FoldParS ℕ ℕ ℕ where
  init := fun x => x + 5
  step := fun x m => m + x
  output := fun m => m
  empty := 0
  merge := fun _ _ => 0

/-- The primitive sum reducer over `ℕ` (`Sum` in src/common.rs, at `usize`). -/
def natSumFold : FoldParS ℕ ℕ ℕ where
  init := fun x => x
  step := fun x m => m + x
  output := fun m => m
  empty := 0
  merge := fun m1 m2 => m1 + m2

variable {B1 B2 M1 M2 : Type}

/-- Combinator `FilteredFold` (src/fold.rs:307): `step` applies the inner step only when
the predicate holds; `init` and `output` pass through unchanged; `step_chunk`
(src/fold.rs:323) collects the predicate-satisfying items of the chunk and
hands them to the inner `step_chunk`. -/
def filteredFold (f : Fold1S A B M) (p : A → Bool) : Fold1S A B M where
  init := f.init
  step := fun x acc => if p x then f.step x acc else acc
  output := f.output
  stepChunk := fun xs acc => f.stepChunk (xs.filter p) acc

/-- Combinator `Par2` (src/fold.rs:258): runs two reducers on every input; the
accumulator is the pair of sub-accumulators; `step_chunk` (src/fold.rs:277)
delegates to both inner `step_chunk`s. -/
def par2 (f1 : Fold1S A B1 M1) (f2 : Fold1S A B2 M2) :
    Fold1S A (B1 × B2) (M1 × M2) where
  init := fun x => (f1.init x, f2.init x)
  step := fun x acc => (f1.step x acc.1, f2.step x acc.2)
  output := fun acc => (f1.output acc.1, f2.output acc.2)
  stepChunk := fun xs acc => (f1.stepChunk xs acc.1, f2.stepChunk xs acc.2)

/-- Combinator `ComposedFold` (src/fold.rs:490): `init` initialises the first reducer and
feeds its current output to the second reducer's `init`; each `step` advances
the first reducer, re-derives its output and steps the second reducer with
it.  `step_chunk` is the trait default, as in the source. -/
def composedFold (f1 : Fold1S A B1 M1) (f2 : Fold1S B1 B2 M2) :
    Fold1S A B2 (M1 × M2) where
  init := fun x =>
    let m1 := f1.init x
    (m1, f2.init (f1.output m1))
  step := fun x acc =>
    let m1 := f1.step x acc.1
    (m1, f2.step (f1.output m1) acc.2)
  output := fun acc => f2.output acc.2

/-- The outputs of a reducer after each further step from state `m`. -/
def scanOutputs (f : Fold1S A B M) : M → List A → List B
  | _, [] => []
  | m, y :: ys =>
    let m' := f.step y m
    f.output m' :: scanOutputs f m' ys

/-- The running outputs of a reducer over the non-empty input `x :: xs`:
`[output (init x), output (init x ⊳ step x₁), …]`. -/
def runningOutputs (f : Fold1S A B M) (x : A) (xs : List A) : List B :=
  f.output (f.init x) :: scanOutputs f (f.init x) xs

/-- Property that `step_chunk` agrees with calling `step` once per item of
the chunk, in order (spec §4.1: "byte-identical results to the naive loop"). -/
def ChunkCorrect (f : Fold1S A B M) : Prop :=
  ∀ (xs : List A) (m : M), f.stepChunk xs m = xs.foldl (fun acc x => f.step x acc) m

/-- Reducer `Sum` (src/common.rs:5), generic over the element type exactly as
the source is: `Sum<A>` only requires an `AddAssign` operation `add` and a
`From<u8>` zero, with no associativity law — the repository instantiates it
at `usize` (tests) and at `f32`/`f64` (examples), and floating-point addition
is not associative.  `step_chunk` (src/common.rs:34) adds the chunk's own sum
(`xs.iter().sum()`, a left fold of `add` from `zero`) to the accumulator in
one operation, reassociating the additions relative to the per-item loop. -/
def sumFold (α : Type) (add : α → α → α) (zero : α) : FoldParS α α α where
  init := fun x => x
  step := fun x acc => add acc x
  output := fun acc => acc
  stepChunk := fun xs acc => add acc (xs.foldl (fun s x => add s x) zero)
  empty := zero
  merge := fun m1 m2 => add m1 m2

/-- Addition of IEEE-754 `f64` restricted to the values appearing in the
step-chunk counterexample, over `ℤ`.  `2^100` is exactly representable in
`f64` with `ulp(2^100) = 2^48`, so `1.0 + 2^100` rounds (to nearest) back to
`2^100` — the absorption case of the conditional; every other sum of these
values (`0 + 2^100`, `2^100 + (-2^100)`, `1 + 0`) is exact.  Each equation
this function takes is a true `f64` fact. -/
def f64AddModel (x y : ℤ) : ℤ :=
  if (x = 1 ∧ y = 2 ^ 100) ∨ (x = 2 ^ 100 ∧ y = 1) then 2 ^ 100 else x + y

/-- Reducer `Count` (src/common.rs:195): `step_chunk` (src/common.rs:218) adds the
chunk's length. -/
def countFold (A : Type) : FoldParS A ℕ ℕ where
  init := fun _ => 1
  step := fun _ acc => acc + 1
  output := fun acc => acc
  stepChunk := fun xs acc => acc + xs.length
  empty := 0
  merge := fun m1 m2 => m1 + m2

/-- Claim C8 as stated: for the trait-default `step_chunk`, for `Par2` and
`FilteredFold` over chunk-correct inner reducers, for `Sum` at every carrier
its generic code admits, and for `Count`, `step_chunk` on a chunk leaves
exactly the same accumulator as calling `step` once per item, in order. -/
def StepChunkClaim : Prop :=
  (∀ (A B M : Type) (i : A → M) (s : A → M → M) (o : M → B),
      ChunkCorrect { init := i, step := s, output := o }) ∧
  (∀ (A B1 B2 M1 M2 : Type) (f1 : Fold1S A B1 M1) (f2 : Fold1S A B2 M2),
      ChunkCorrect f1 → ChunkCorrect f2 → ChunkCorrect (par2 f1 f2)) ∧
  (∀ (A B M : Type) (f : Fold1S A B M) (p : A → Bool),
      ChunkCorrect f → ChunkCorrect (filteredFold f p)) ∧
  (∀ (α : Type) (add : α → α → α) (zero : α),
      ChunkCorrect (sumFold α add zero).toFold1S) ∧
  (∀ A : Type, ChunkCorrect (countFold A).toFold1S)

/-- The successful results among a list of task results ("exactly the
successful task results", spec §4.2). -/
def successes (rs : List (Except E M)) : List M :=
  rs.filterMap fun r =>
    match r with
    | .ok m => some m
    | .error _ => none

end Folds

namespace Stats

variable {A : Type}

/-- Struct `MState` (src/stats.rs:21): moment-accumulator fields. -/
structure MState (K : Type) where
  n : ℕ
  m : K
  m2 : K
  m3 : K
  m4 : K
deriving DecidableEq, Repr

/-- Method `CM4::init` (src/stats.rs:36): note that all four moment fields are set to
the first value `x`, exactly as in the source. -/
def CM4init (x : ℚ) : MState ℚ :=
  { n := 1, m := x, m2 := x, m3 := x, m4 := x }

/-- Method `CM4::empty` (src/stats.rs:76). -/
def CM4empty : MState ℚ :=
  { n := 0, m := 0, m2 := 0, m3 := 0, m4 := 0 }

/-- Method `CM4::step` (src/stats.rs:46): the incremental-delta update.  The source
updates `m` first, then `m4` (reading the old `m2`, `m3`), then `m3` (reading
the old `m2`), then `m2`; with explicit state passing the old fields are read
directly from `acc`. -/
def CM4step (x : ℚ) (acc : MState ℚ) : MState ℚ :=
  let delta := x - acc.m
  let n' := acc.n + 1
  let denom : ℚ := (n' : ℚ)
  let delta_n := delta / denom
  { n := n'
    m := acc.m + delta / denom
    m4 := acc.m4 + delta_n ^ 3 * delta * (denom - 1) * (denom ^ 2 - 3 * denom + 3)
        + 6 * acc.m2 * delta_n ^ 2 - 4 * acc.m3 * delta_n
    m3 := acc.m3 + delta_n ^ 2 * delta * (denom - 1) * (denom - 2) - 3 * delta_n * acc.m2
    m2 := acc.m2 + delta_n * delta * (denom - 1) }

/-- Method `CM4::merge` (src/stats.rs:90).  Transcribed statement-by-statement: the
source captures `m2_a`, `m2_b` *before* updating `acc1.m2`, but captures
`m3_a = acc1.m3` *after* the `acc1.m3 += …` update, so the `m4` cross-term
reads the already-merged third moment. -/
def CM4merge (acc1 acc2 : MState ℚ) : MState ℚ :=
  let n_a : ℚ := (acc1.n : ℚ)
  let n_b : ℚ := (acc2.n : ℚ)
  let n_ab := n_a + n_b
  let delta := acc2.m - acc1.m
  let n' := acc1.n + acc2.n
  let m' := acc1.m + delta * n_b / n_ab
  let m2_a := acc1.m2
  let m2_b := acc2.m2
  let m2' := acc1.m2 + acc2.m2 + delta * delta * n_a * n_b / n_ab
  let m3' := acc1.m3 + acc2.m3 + delta ^ 3 * n_a * n_b * (n_ab ^ 2)⁻¹ * (n_a - n_b)
      + 3 * delta * (n_a * m2_b - n_b * m2_a) / n_ab
  let m3_a := m3'
  let m3_b := acc2.m3
  let m4' := acc1.m4 + acc2.m4
      + delta ^ 4 * n_a * n_b * (n_a * n_a - n_a * n_b + n_b * n_b) * (n_ab ^ 3)⁻¹
      + 6 * delta * delta * (n_a * n_a * m2_b + n_b * n_b * m2_a) * (n_ab ^ 2)⁻¹
      + 4 * delta * (n_a * m3_b - n_b * m3_a) / n_ab
  { n := n', m := m', m2 := m2', m3 := m3', m4 := m4' }

/-- Sequential total fold of `CM4` over a dataset (`empty` + `step` per item,
as in `run_fold_iter` and the chunk loop of `run_fold_par_iter`). -/
def CM4fold (xs : List ℚ) : MState ℚ :=
  xs.foldl (fun acc x => CM4step x acc) CM4empty

/-- Method `CM4::output` (src/stats.rs:65), over `ℝ` because it uses `powf` (real
power) and `sqrt`: `(m, m2/(n-1), m3 · m2^(-1.5) · √n, n · m4 · m2^(-2))`,
with `powf(-1.5)` as `rpow` and `powi(-2)` as `zpow`. -/
noncomputable def CM4output (acc : MState ℝ) : ℝ × ℝ × ℝ × ℝ :=
  (acc.m,
   acc.m2 / ((acc.n : ℝ) - 1),
   acc.m3 * acc.m2 ^ (-1.5 : ℝ) * Real.sqrt (acc.n : ℝ),
   (acc.n : ℝ) * acc.m4 * acc.m2 ^ (-2 : ℤ))

/-- The output quadruple in the spec's words: mean `m`, sample variance
`m2/(n-1)`, skewness `m3 · √n / m2^{3/2}`, kurtosis `n · m4 / m2²`, written
with ordinary powers, square roots and division. -/
noncomputable def CM4outputSpec (acc : MState ℝ) : ℝ × ℝ × ℝ × ℝ :=
  (acc.m,
   acc.m2 / ((acc.n : ℝ) - 1),
   acc.m3 * Real.sqrt (acc.n : ℝ) / Real.sqrt (acc.m2 ^ 3),
   (acc.n : ℝ) * acc.m4 / acc.m2 ^ 2)

/-- The random draws of the reservoir sampler, abstracted.  The source seeds a
fresh `SmallRng` from process entropy at the filling→active transition and
keeps it, together with the real-valued skip weight `w`, inside the `Resevoir`
variant.  Both only influence the accumulator through (a) the outcome of the
comparison `rng.sample(dist).ln() > (-w).ln_1p()` and (b) the sampled
replacement slot `rng.sample(index_dist)`, so they are modelled as an oracle
giving, for the `t`-th active-phase call, the comparison outcome `keep t` and
the slot `slot t`; the accumulator stores the draw counter `t` in place of the
generator state and `w`.  Every concrete generator corresponds to some
oracle, so properties proved for all oracles cover the source. -/
structure Entropy where
  keep : ℕ → Bool
  slot : ℕ → ℕ

/-- Enum `Resevoir` (src/stats.rs:127): either still filling (the items collected
so far, in arrival order) or an active reservoir; the fixed array `[A; N]` is
modelled as a list (its length-`N` invariant is proved, not assumed). -/
inductive Resevoir (A : Type) where
  | Filling (xs : List A)
  | Resevoir (t : ℕ) (skip : ℕ) (res : List A)
deriving DecidableEq, Repr

/-- Method `Resevoir::sample` (src/stats.rs:142).  Filling phase: push the item; when
the length reaches `N`, transition to the active phase with a fresh draw
counter and `skip = 1`.  Active phase: a non-keep comparison increments
`skip`; if `skip` is then zero the item replaces the drawn slot and `skip` is
incremented; finally `skip` is decremented (the source's `+= 1` / `-= 1`
sequence is kept literally). -/
def resevoirSample (N : ℕ) (e : Entropy) (x : A) (st : Resevoir A) : Resevoir A :=
  match st with
  | .Filling xs =>
      let xs' := xs ++ [x]
      if xs'.length = N then .Resevoir 0 1 xs' else .Filling xs'
  | .Resevoir t skip res =>
      let skip1 := if e.keep t then skip else skip + 1
      if skip1 = 0 then
        .Resevoir (t + 1) (skip1 + 1 - 1) (res.set (e.slot t) x)
      else
        .Resevoir (t + 1) (skip1 - 1) res

/-- Method `SampleN::init` (src/stats.rs:191): pushes the first item into a fresh
filling buffer — with no `len == N` transition check, exactly as in the
source. -/
def SampleN.init (x : A) : Resevoir A :=
  .Filling [x]

/-- Method `SampleN::empty` via `Resevoir::new_empty` (src/stats.rs:138). -/
def SampleN.empty (A : Type) : Resevoir A :=
  .Filling []

/-- Method `SampleN::output` (src/stats.rs:202): `Err` of the collected items while
filling, `Ok` of the sampled array once active. -/
def SampleN.output : Resevoir A → Except (List A) (List A)
  | .Filling xs => .error xs
  | .Resevoir _ _ res => .ok res

/-- Returns `true` on the filling phase. -/
def resevoirIsFilling : Resevoir A → Bool
  | .Filling _ => true
  | .Resevoir _ _ _ => false

/-- The reservoir sampler as a partial fold (`Fold1` instance of `SampleN`,
src/stats.rs:181). -/
def sampleNFold1 (N : ℕ) (e : Entropy) :
    Folds.Fold1S A (Except (List A) (List A)) (Resevoir A) where
  init := SampleN.init
  step := resevoirSample N e
  output := SampleN.output

/-- The reservoir sampler as a total fold (`Fold` instance of `SampleN`,
src/stats.rs:210). -/
def sampleNFold (N : ℕ) (e : Entropy) (A : Type) :
    Folds.FoldS A (Except (List A) (List A)) (Resevoir A) :=
  { sampleNFold1 N e with empty := SampleN.empty A }

/-- A concrete entropy oracle (all comparisons keep; all slots drawn `0`). -/
def eTrue : Entropy :=
  { keep := fun _ => true, slot := fun _ => 0 }

end Stats

/-! ## Helper lemmas -/

/-- Left folds of addition shift their initial accumulator out. -/
theorem foldl_add_shift {α : Type} [AddMonoid α] (xs : List α) :
    ∀ m : α, xs.foldl (fun acc x => acc + x) m = m + xs.foldl (fun acc x => acc + x) 0 := by
  induction xs with
  | nil => intro m; simp
  | cons x xs ih =>
    intro m
    simp only [List.foldl_cons]
    rw [ih (m + x), ih (0 + x), zero_add, add_assoc]

/-- Left folds of an associative operation with a two-sided identity shift
their initial accumulator out. -/
theorem foldl_op_shift {α : Type} (add : α → α → α) (zero : α)
    (hassoc : ∀ a b c, add (add a b) c = add a (add b c))
    (hzl : ∀ a, add zero a = a) (hzr : ∀ a, add a zero = a) :
    ∀ (xs : List α) (m : α),
      xs.foldl (fun acc x => add acc x) m
        = add m (xs.foldl (fun acc x => add acc x) zero) := by
  intro xs
  induction xs with
  | nil => intro m; exact (hzr m).symm
  | cons x xs ih =>
    intro m
    simp only [List.foldl_cons]
    rw [ih (add m x), ih (add zero x), hzl, hassoc]

/-- A left fold over a pair of accumulators splits componentwise. -/
theorem foldl_prod {A M1 M2 : Type} (g1 : A → M1 → M1) (g2 : A → M2 → M2) :
    ∀ (xs : List A) (p : M1 × M2),
      xs.foldl (fun acc x => (g1 x acc.1, g2 x acc.2)) p
        = (xs.foldl (fun acc x => g1 x acc) p.1, xs.foldl (fun acc x => g2 x acc) p.2) := by
  intro xs
  induction xs with
  | nil => intro p; rfl
  | cons x xs ih => intro p; simp only [List.foldl_cons]; exact ih _

/-- Stepping through the predicate-satisfying elements equals a guarded fold
over all elements. -/
theorem foldl_filter_step {A M : Type} (s : A → M → M) (p : A → Bool) :
    ∀ (xs : List A) (m : M),
      (xs.filter p).foldl (fun acc x => s x acc) m
        = xs.foldl (fun acc x => if p x then s x acc else acc) m := by
  intro xs
  induction xs with
  | nil => intro m; rfl
  | cons x xs ih =>
    intro m
    by_cases h : p x <;> simp only [List.filter_cons, h, List.foldl_cons, if_true,
      if_false, ite_true, ite_false] <;> exact ih _

/-- Counting by repeated increment equals adding the length. -/
theorem foldl_count {A : Type} :
    ∀ (xs : List A) (m : ℕ), xs.foldl (fun acc _ => acc + 1) m = m + xs.length := by
  intro xs
  induction xs with
  | nil => intro m; rfl
  | cons x xs ih =>
    intro m
    simp only [List.foldl_cons, List.length_cons, ih (m + 1)]
    omega

/-- Folding `merge` over the successful results only is the same as a fold
that skips failed results in place. -/
theorem foldl_merge_okResults {M E : Type} (merge : M → M → M) :
    ∀ (rs : List (Except E M)) (m : M),
      rs.foldl
          (fun m1 r =>
            match r with
            | .ok m2 => merge m1 m2
            | .error _ => m1)
          m
        = (Folds.successes rs).foldl (fun m1 m2 => merge m1 m2) m := by
  intro rs
  induction rs with
  | nil => intro m; rfl
  | cons r rs ih =>
    intro m
    cases r <;> simp only [Folds.successes, List.filterMap_cons, List.foldl_cons] <;>
      exact ih _

/-- The second component of the composed fold's state is the second reducer
folded over the first reducer's running outputs. -/
theorem composed_foldl_snd {A B1 B2 M1 M2 : Type}
    (f1 : Folds.Fold1S A B1 M1) (f2 : Folds.Fold1S B1 B2 M2) :
    ∀ (xs : List A) (m1 : M1) (m2 : M2),
      (xs.foldl (fun acc y => (Folds.composedFold f1 f2).step y acc) (m1, m2)).2
        = (Folds.scanOutputs f1 m1 xs).foldl (fun acc z => f2.step z acc) m2 := by
  intro xs
  induction xs with
  | nil => intro m1 m2; rfl
  | cons y ys ih =>
    intro m1 m2
    simp only [List.foldl_cons, Folds.scanOutputs]
    exact ih _ _

/-- Under the merge contract, combining per-chunk accumulators with `merge`
is the same as stepping through the concatenated chunks. -/
theorem foldl_merge_chunkFolds (f : Folds.FoldParS A B M) (hm : Folds.MergeContract f) :
    ∀ (chunks : List (List A)) (m : M),
      (chunks.map (fun ch => ch.foldl (fun acc x => f.step x acc) f.empty)).foldl
          (fun m1 m2 => f.merge m1 m2) m
        = chunks.flatten.foldl (fun acc x => f.step x acc) m := by
  intro chunks
  induction chunks with
  | nil => intro m; simp
  | cons ch chs ih =>
    intro m
    simp only [List.map_cons, List.foldl_cons, List.flatten_cons, List.foldl_append]
    rw [hm m ch, ih]

/-! ## Claim theorems -/

/-- C1 (counterexample): commutativity and associativity of `merge` alone do
not make the data-parallel driver agree with the sequential drivers; the
reducer `constMergeSum` (merge constantly `0`) is a witness at chunking
`[[1]]`. -/
theorem parAgreesWithSeqClaim_false : ¬ Folds.ParAgreesWithSeqClaim := by
  intro h
  unfold Folds.ParAgreesWithSeqClaim at h
  have h1 := (h Folds.constMergeSum (fun _ _ => rfl) (fun _ _ _ => rfl) [[1]]).1
  exact absurd h1 (by decide)

/-- C1 (amended): for every mergeable reducer whose merge is commutative and
associative **and** satisfies the accumulator-merge contract (merging an
accumulator built from `xs` into `m` equals stepping `xs` through `m`), with
`init` consistent with a first step from `empty`, the data-parallel driver
agrees with the sequential total-fold driver on every contiguous chunking of
the input, and with the sequential partial-fold driver whenever the input is
non-empty. -/
theorem runFoldParIter_eq_runFoldIter (f : Folds.FoldParS A B M)
    (hcomm : Folds.CommMerge f) (hassoc : Folds.AssocMerge f)
    (hm : Folds.MergeContract f) (hi : Folds.InitConsistent f)
    (chunks : List (List A)) :
    Folds.runFoldParIter f chunks = Folds.runFoldIter f.toFoldS chunks.flatten ∧
    (chunks.flatten ≠ [] →
      Folds.runFold1Iter f.toFold1S chunks.flatten
        = some (Folds.runFoldParIter f chunks)) := by
  have key := foldl_merge_chunkFolds f hm chunks f.empty
  have hpar : Folds.runFoldParIter f chunks = Folds.runFoldIter f.toFoldS chunks.flatten := by
    unfold Folds.runFoldParIter Folds.runFoldIter
    rw [key]
  refine ⟨hpar, ?_⟩
  intro hne
  obtain ⟨x, rest, hx⟩ := List.exists_cons_of_ne_nil hne
  rw [hpar, hx]
  unfold Folds.runFold1Iter Folds.runFoldIter
  simp only [List.foldl_cons]
  rw [hi x]

/-- Witness for `runFoldParIter_eq_runFoldIter`: the natural-number sum
reducer satisfies all four hypotheses, and the conclusion holds at the
chunking `[[1, 2], [3]]`. -/
theorem runFoldParIter_eq_runFoldIter_witness :
    Folds.CommMerge Folds.natSumFold ∧ Folds.AssocMerge Folds.natSumFold ∧
    Folds.MergeContract Folds.natSumFold ∧ Folds.InitConsistent Folds.natSumFold ∧
    (Folds.runFoldParIter Folds.natSumFold [[1, 2], [3]]
        = Folds.runFoldIter Folds.natSumFold.toFoldS [[1, 2], [3]].flatten ∧
      ([[1, 2], [3]].flatten ≠ ([] : List ℕ) →
        Folds.runFold1Iter Folds.natSumFold.toFold1S [[1, 2], [3]].flatten
          = some (Folds.runFoldParIter Folds.natSumFold [[1, 2], [3]]))) :=
  ⟨fun a b => Nat.add_comm a b,
   fun a b c => Nat.add_assoc a b c,
   fun m xs => (foldl_add_shift xs m).symm,
   fun x => (Nat.zero_add x).symm,
   runFoldParIter_eq_runFoldIter Folds.natSumFold
     (fun a b => Nat.add_comm a b)
     (fun a b c => Nat.add_assoc a b c)
     (fun m xs => (foldl_add_shift xs m).symm)
     (fun x => (Nat.zero_add x).symm)
     [[1, 2], [3]]⟩

/-- C2: merging the accumulators of the two halves `[0, 3]` and `[1]` of the
dataset `[0, 3, 1]` reproduces the sequentially folded accumulator in the
fields `n`, `m`, `m2`, `m3`, but **not** in `m4` (exact arithmetic over `ℚ`):
`CM4::merge` reads the already-merged third moment (`let m3_a = acc1.m3`
placed after the `acc1.m3 += …` update) in the `m4` cross-term. -/
theorem cm4_merge_m4_differs_from_fold :
    (Stats.CM4merge (Stats.CM4fold [0, 3]) (Stats.CM4fold [1])).n
        = (Stats.CM4fold [0, 3, 1]).n ∧
    (Stats.CM4merge (Stats.CM4fold [0, 3]) (Stats.CM4fold [1])).m
        = (Stats.CM4fold [0, 3, 1]).m ∧
    (Stats.CM4merge (Stats.CM4fold [0, 3]) (Stats.CM4fold [1])).m2
        = (Stats.CM4fold [0, 3, 1]).m2 ∧
    (Stats.CM4merge (Stats.CM4fold [0, 3]) (Stats.CM4fold [1])).m3
        = (Stats.CM4fold [0, 3, 1]).m3 ∧
    (Stats.CM4merge (Stats.CM4fold [0, 3]) (Stats.CM4fold [1])).m4
        ≠ (Stats.CM4fold [0, 3, 1]).m4 := by
  refine ⟨?_, ?_, ?_, ?_, ?_⟩ <;>
    norm_num [Stats.CM4fold, Stats.CM4merge, Stats.CM4step, Stats.CM4empty]

/-- C3: the moment-accumulator produced by `CM4::init` on the first value `-1`
has `m2 = -1 < 0`, violating the `m2 ≥ 0` invariant, while the equivalent
one-observation accumulator reached through `empty` + `step` has `m2 = 0`. -/
theorem cm4_init_negative_m2 :
    (Stats.CM4init (-1)).m2 < 0 ∧ (Stats.CM4step (-1) Stats.CM4empty).m2 = 0 := by
  constructor <;> norm_num [Stats.CM4init, Stats.CM4step, Stats.CM4empty]

/-- C4: on a moment-accumulator with `n ≥ 2` and `m2 > 0`, `CM4::output`
returns exactly the quadruple (mean, sample variance, skewness, kurtosis) =
`(m, m2/(n-1), m3·√n/m2^{3/2}, n·m4/m2²)` of the spec. -/
theorem cm4_output_eq_spec (acc : Stats.MState ℝ)
    (hn : 2 ≤ acc.n) (h2 : 0 < acc.m2) :
    Stats.CM4output acc = Stats.CM4outputSpec acc := by
  unfold Stats.CM4output Stats.CM4outputSpec
  have hsqrt : Real.sqrt (acc.m2 ^ 3) = acc.m2 ^ ((3 : ℝ) / 2) := by
    rw [Real.sqrt_eq_rpow]
    rw [← Real.rpow_natCast acc.m2 3, ← Real.rpow_mul h2.le]
    norm_num
  have hskew : acc.m2 ^ (-1.5 : ℝ) = (Real.sqrt (acc.m2 ^ 3))⁻¹ := by
    rw [hsqrt, ← Real.rpow_neg h2.le]
    norm_num
  have hkurt : acc.m2 ^ (-2 : ℤ) = (acc.m2 ^ 2)⁻¹ := by
    rw [zpow_neg]
    norm_cast
  rw [hskew, hkurt]
  simp only [Prod.mk.injEq]
  refine ⟨trivial, trivial, ?_, ?_⟩
  · rw [div_eq_mul_inv]
    ring
  · rw [div_eq_mul_inv]

/-- Witness for `cm4_output_eq_spec` at the accumulator
`⟨n := 2, m := 0, m2 := 1, m3 := 0, m4 := 5⟩`. -/
theorem cm4_output_eq_spec_witness :
    2 ≤ (2 : ℕ) ∧ (0 : ℝ) < 1 ∧
      Stats.CM4output ⟨2, 0, 1, 0, 5⟩ = Stats.CM4outputSpec ⟨2, 0, 1, 0, 5⟩ :=
  ⟨le_refl 2, one_pos, cm4_output_eq_spec ⟨2, 0, 1, 0, 5⟩ (le_refl 2) one_pos⟩

/-- C5: with capacity `N = 1` and the stream `[10, 20]` of length `L = 2 > N`,
the partial fold (`init` on the first element, as in `run_fold1_iter`)
returns the `Err` variant holding both items — not `Ok` with exactly one —
because `SampleN::init` pushes the first item without the `len == N`
transition check; from `empty`, the same stream correctly yields `Ok` with
one element. -/
theorem sampleN_output_wrong_for_capacity_one :
    Folds.runFold1Iter (Stats.sampleNFold1 1 Stats.eTrue) [(10 : ℕ), 20]
        = some (Except.error [10, 20]) ∧
    Folds.runFoldIter (Stats.sampleNFold 1 Stats.eTrue ℕ) [(10 : ℕ), 20]
        = Except.ok [10] := by
  constructor <;> rfl

/-- C6: with capacity `N = 1`, the accumulator created by `SampleN::init` on
the first item has incorporated `1 = N` items yet is still in the filling
phase (the claim requires filling ↔ fewer than `N` items), and the next
`sample` call leaves it filling as well — the `len == N` transition compares
`2 == 1` and never fires. -/
theorem sampleN_init_misses_transition :
    Stats.resevoirIsFilling (Stats.SampleN.init (10 : ℕ)) = true ∧
    ¬ ((1 : ℕ) < 1) ∧
    Stats.resevoirIsFilling (Stats.resevoirSample 1 Stats.eTrue (20 : ℕ) (Stats.SampleN.init 10))
        = true ∧
    (Stats.resevoirSample 1 Stats.eTrue (20 : ℕ) (Stats.SampleN.init 10))
        = Stats.Resevoir.Filling [10, 20] := by
  refine ⟨rfl, by omega, rfl, rfl⟩

/-- C7: over a non-empty input `x :: xs`, the sequentially composed reducer
equals folding the second reducer (with `init` on the first element) over the
running outputs of the first reducer. -/
theorem composedFold_eq_fold_of_runningOutputs {A B1 B2 M1 M2 : Type}
    (f1 : Folds.Fold1S A B1 M1) (f2 : Folds.Fold1S B1 B2 M2) (x : A) (xs : List A) :
    Folds.runFold1Iter (Folds.composedFold f1 f2) (x :: xs)
      = Folds.runFold1Iter f2 (Folds.runningOutputs f1 x xs) := by
  exact congrArg some (congrArg f2.output
    (composed_foldl_snd f1 f2 xs (f1.init x) (f2.init (f1.output (f1.init x)))))

set_option maxRecDepth 4000 in
/-- C8 (counterexample): `Sum`'s `step_chunk` computes `add acc (Σ chunk)`,
reassociating the additions relative to the per-item loop, and the generic
code admits non-associative carriers — the repository itself instantiates
`Sum` at `f64`/`f32`.  Instantiating the carrier with `f64AddModel` (true
`f64` addition facts at `1`, `±2^100`, `0`), the chunk `[2^100, -2^100]` from
accumulator `1` gives `1` via `step_chunk` (the chunk sum `2^100 - 2^100 = 0`
is added exactly) but `0` via the loop (`1 + 2^100` absorbs to `2^100`). -/
theorem stepChunkClaim_false : ¬ Folds.StepChunkClaim := by
  intro h
  unfold Folds.StepChunkClaim at h
  have hadd := h.2.2.2.1 ℤ Folds.f64AddModel 0 [2 ^ 100, -2 ^ 100] 1
  exact absurd hadd (by decide)

/-- C8 (amended): `step_chunk` agrees with calling `step` once per item of
the chunk, in order, for the trait default, for `Par2` and `FilteredFold`
whenever their inner reducers' `step_chunk` agrees, for `Count`, and for
`Sum` whenever the element type's addition is associative with the
`From(0)` element a two-sided identity (as at the integer carriers the
repository's tests use) — at floating-point carriers `Sum`'s reassociated
chunk sum is not byte-identical to the loop. -/
theorem stepChunk_matches_steps :
    (∀ (A B M : Type) (i : A → M) (s : A → M → M) (o : M → B),
        Folds.ChunkCorrect { init := i, step := s, output := o }) ∧
    (∀ (A B1 B2 M1 M2 : Type) (f1 : Folds.Fold1S A B1 M1) (f2 : Folds.Fold1S A B2 M2),
        Folds.ChunkCorrect f1 → Folds.ChunkCorrect f2 →
          Folds.ChunkCorrect (Folds.par2 f1 f2)) ∧
    (∀ (A B M : Type) (f : Folds.Fold1S A B M) (p : A → Bool),
        Folds.ChunkCorrect f → Folds.ChunkCorrect (Folds.filteredFold f p)) ∧
    (∀ (α : Type) (add : α → α → α) (zero : α),
        (∀ a b c, add (add a b) c = add a (add b c)) →
        (∀ a, add zero a = a) → (∀ a, add a zero = a) →
        Folds.ChunkCorrect (Folds.sumFold α add zero).toFold1S) ∧
    (∀ A : Type, Folds.ChunkCorrect (Folds.countFold A).toFold1S) := by
  refine ⟨?_, ?_, ?_, ?_, ?_⟩
  · intro A B M i s o xs m
    rfl
  · intro A B1 B2 M1 M2 f1 f2 h1 h2 xs m
    show (f1.stepChunk xs m.1, f2.stepChunk xs m.2)
        = xs.foldl (fun acc x => (f1.step x acc.1, f2.step x acc.2)) m
    rw [h1, h2, foldl_prod]
  · intro A B M f p h xs m
    show f.stepChunk (xs.filter p) m = _
    rw [h, foldl_filter_step]
    rfl
  · intro α add zero hassoc hzl hzr xs m
    show add m (xs.foldl (fun s x => add s x) zero) = _
    exact (foldl_op_shift add zero hassoc hzl hzr xs m).symm
  · intro A xs m
    show m + xs.length = _
    exact (foldl_count xs m).symm

/-- Witness for `stepChunk_matches_steps`: `ℕ` addition (the `usize`
instantiation of the repository's tests) is associative with two-sided
identity `0`, the inner-correctness hypotheses of the `Par2` case hold for
this `Sum` and for `Count`, and the combined `step_chunk` on the chunk
`[1, 2]` from `(0, 0)` equals the stepped result `(3, 2)`. -/
theorem stepChunk_matches_steps_witness :
    Folds.ChunkCorrect (Folds.sumFold ℕ (fun a b => a + b) 0).toFold1S ∧
    Folds.ChunkCorrect (Folds.countFold ℕ).toFold1S ∧
    (Folds.par2 (Folds.sumFold ℕ (fun a b => a + b) 0).toFold1S
        (Folds.countFold ℕ).toFold1S).stepChunk [1, 2] (0, 0) = (3, 2) := by
  have h := stepChunk_matches_steps
  have hsum := h.2.2.2.1 ℕ (fun a b => a + b) 0
    (fun a b c => Nat.add_assoc a b c) (fun a => Nat.zero_add a)
    (fun a => Nat.add_zero a)
  refine ⟨hsum, h.2.2.2.2 ℕ, ?_⟩
  rw [h.2.1 ℕ ℕ ℕ ℕ ℕ (Folds.sumFold ℕ (fun a b => a + b) 0).toFold1S
    (Folds.countFold ℕ).toFold1S hsum (h.2.2.2.2 ℕ) [1, 2] (0, 0)]
  decide

/-- C9: the bounded-concurrency streaming driver silently skips failed task
results: its return value is always `some` of the output of folding `merge`
(from `empty`) over exactly the successful task results. -/
theorem runFoldParStream_skips_failures {A B M E : Type}
    (f : Folds.FoldParS A B M) (results : List (Except E M)) :
    Folds.runFoldParStream f results
      = some (f.output
          ((Folds.successes results).foldl (fun m1 m2 => f.merge m1 m2) f.empty)) := by
  unfold Folds.runFoldParStream
  rw [foldl_merge_okResults]

/-- C10: under the sequential partial-fold driver, the filtered reducer
incorporates the first element via the inner `init` unconditionally — the
predicate is consulted only in `step` — so the run equals running the inner
reducer on the first element followed by the predicate-filtered rest. -/
theorem filteredFold_keeps_first_element {A B M : Type}
    (f : Folds.Fold1S A B M) (p : A → Bool) (x : A) (xs : List A) :
    Folds.runFold1Iter (Folds.filteredFold f p) (x :: xs)
      = Folds.runFold1Iter f (x :: xs.filter p) := by
  unfold Folds.runFold1Iter
  simp only [Folds.filteredFold]
  rw [foldl_filter_step]
